import Mathlib

/-!
Verification of the `rufl` command orchestrator (main.go).

Go strings are modelled as `List Char`; each definition below is a shallow
embedding of the corresponding Go function, translated line by line from
`src/main.go`.
-/

set_option maxHeartbeats 1000000

/-- A Go string, modelled as its character sequence. -/
abbrev GoStr := List Char

/-- Coerce a Lean string literal to the Go string model. -/
def gs (s : String) : GoStr := s.data

/-- `strings.HasPrefix s pre`. -/
def goHasPrefix : GoStr → GoStr → Bool
  | _, [] => true
  | [], _ :: _ => false
  | c :: s, p :: pre => c = p && goHasPrefix s pre

/-- `strings.Contains s sub` (substring containment). -/
def goContains : GoStr → GoStr → Bool
  | s, sub =>
    goHasPrefix s sub ||
      (match s with
       | [] => false
       | _ :: t => goContains t sub)

/-- Split `s` at the first occurrence of `sep`: `some (before, after)`,
or `none` when `sep` does not occur. -/
def splitFirst : GoStr → Char → Option (GoStr × GoStr)
  | [], _ => none
  | c :: t, sep =>
    if c = sep then some ([], t)
    else
      match splitFirst t sep with
      | some (a, b) => some (c :: a, b)
      | none => none

/-- `strings.SplitN s (String.singleton sep) 2`: at most two pieces,
split around the first occurrence of `sep`. -/
def splitN2 (s : GoStr) (sep : Char) : List GoStr :=
  match splitFirst s sep with
  | some (a, b) => [a, b]
  | none => [s]

/-- Decimal rendering, fuelled so that it reduces in the kernel; `fuel`
bounds the number of digits. -/
def natDigitsAux : Nat → Nat → GoStr
  | 0, _ => []
  | fuel + 1, n =>
    if n < 10 then [Char.ofNat (48 + n)]
    else natDigitsAux fuel (n / 10) ++ [Char.ofNat (48 + n % 10)]

/-- Decimal rendering of a natural number (`fmt.Sprintf "%d" n`);
`n + 1` always exceeds the number of decimal digits of `n`. -/
def natDigits (n : Nat) : GoStr := natDigitsAux (n + 1) n

/-- `CommandInfo` from main.go: a resolved work item. -/
structure CommandInfo where
  Command : GoStr
  Tag : GoStr
  Index : Nat
deriving DecidableEq

/-- A pending tag declaration (the anonymous `{Tag, Command}` struct in
`processCommands`). -/
structure Decl where
  Tag : GoStr
  Command : GoStr
deriving DecidableEq

/-- A warning printed by `processCommands`. -/
inductive ResolveWarn where
  | inlineBad (arg : GoStr)
  | flagBad (tagArg : GoStr)
deriving DecidableEq

/-- First loop of `processCommands`: separate regular args from
`+tag:command` args.  Returns (tagged declarations, regular args, warnings),
each in encounter order. -/
def classifyArgs : List GoStr → List Decl × List GoStr × List ResolveWarn
  | [] => ([], [], [])
  | arg :: rest =>
    let (decls, regs, warns) := classifyArgs rest
    if goHasPrefix arg (gs "+") && goContains arg (gs ":") then
      let tagParts := splitN2 (arg.drop 1) ':'
      if tagParts.length ≠ 2 then
        (decls, regs, .inlineBad arg :: warns)
      else
        ({ Tag := tagParts.headI, Command := tagParts.tail.headI } :: decls,
         regs, warns)
    else
      (decls, arg :: regs, warns)

/-- Second loop of `processCommands`: parse the `-t` flag values. -/
def parseFlagTags : List GoStr → List Decl × List ResolveWarn
  | [] => ([], [])
  | tagArg :: rest =>
    let (decls, warns) := parseFlagTags rest
    let tagParts := splitN2 tagArg ':'
    if tagParts.length ≠ 2 then
      (decls, .flagBad tagArg :: warns)
    else
      ({ Tag := tagParts.headI, Command := tagParts.tail.headI } :: decls,
       warns)

/-- The inner `for j, taggedCmd := range taggedCommands` loop of
`processCommands`: find the first declaration whose command equals `cmd`,
returning its tag and the pool with that declaration removed. -/
def findAndRemove (cmd : GoStr) : List Decl → Option (GoStr × List Decl)
  | [] => none
  | d :: rest =>
    if d.Command = cmd then some (d.Tag, rest)
    else
      match findAndRemove cmd rest with
      | some (t, rest') => some (t, d :: rest')
      | none => none

/-- Third loop of `processCommands`: walk the regular args (positional
commands), threading the pending-declaration pool and the 0-based index. -/
def processRegular (pool : List Decl) (i : Nat) :
    List GoStr → List CommandInfo × List Decl
  | [] => ([], pool)
  | cmd :: rest =>
    match findAndRemove cmd pool with
    | some (t, pool') =>
      let (items, poolF) := processRegular pool' (i + 1) rest
      ({ Command := cmd, Tag := t, Index := i } :: items, poolF)
    | none =>
      let (items, poolF) := processRegular pool (i + 1) rest
      ({ Command := cmd, Tag := natDigits (i + 1), Index := i } :: items,
       poolF)

/-- Fourth loop of `processCommands`: remaining pool declarations become
work items with contiguously continuing indices. -/
def remainingItems : List Decl → Nat → List CommandInfo
  | [], _ => []
  | d :: rest, n =>
    { Command := d.Command, Tag := d.Tag, Index := n } ::
      remainingItems rest (n + 1)

/-- `processCommands` from main.go, over the argument list and the `-t`
flag values (the `tags` global).  Returns the resolved work list together
with the warnings it prints. -/
def processCommands (args : List GoStr) (tags : List GoStr) :
    List CommandInfo × List ResolveWarn :=
  let ir := classifyArgs args
  let fr := parseFlagTags tags
  let pool := ir.1 ++ fr.1
  let pr := processRegular pool 0 ir.2.1
  (pr.1 ++ remainingItems pr.2 ir.2.1.length, ir.2.2 ++ fr.2)

example :
    (processCommands [gs "echo hello", gs "echo world"]
        [gs "greeting:echo hello"]).1 =
      [⟨gs "echo hello", gs "greeting", 0⟩, ⟨gs "echo world", gs "2", 1⟩] := by
  decide

/-! ### Spec-level description of the Command Resolver

`resolveSpecModel` restates §4.1 of the specification with standard list
machinery (`filter`, `filterMap`, `findIdx?`, `eraseIdx`, `enumFrom`),
independently of the loop structure of `processCommands`. -/

/-- Spec reading of an inline `+tag:cmd` declaration. -/
def parseInlineDecl (a : GoStr) : Option Decl :=
  if goHasPrefix a (gs "+") then
    match splitFirst (a.drop 1) ':' with
    | some (t, c) => some { Tag := t, Command := c }
    | none => none
  else none

/-- Spec reading of a `-t name:cmd` flag declaration. -/
def parseFlagDecl (t : GoStr) : Option Decl :=
  match splitFirst t ':' with
  | some (a, b) => some { Tag := a, Command := b }
  | none => none

/-- Spec resolution walk: positional commands in order, consuming the first
pool declaration with exactly equal command text, defaulting the tag to the
decimal 1-based position. -/
def specResolve : List GoStr → List Decl → Nat → List CommandInfo × List Decl
  | [], pool, _ => ([], pool)
  | cmd :: rest, pool, p =>
    match pool.findIdx? (fun d => decide (d.Command = cmd)) with
    | some j =>
      let tag := ((pool[j]?).map Decl.Tag).getD []
      let (items, poolF) := specResolve rest (pool.eraseIdx j) (p + 1)
      ({ Command := cmd, Tag := tag, Index := p } :: items, poolF)
    | none =>
      let (items, poolF) := specResolve rest pool (p + 1)
      ({ Command := cmd, Tag := natDigits (p + 1), Index := p } :: items,
       poolF)

/-- The Command Resolver as the specification words it: positional
arguments in order with adopted-or-defaulted tags, followed by the
unconsumed declarations with contiguously continuing indices. -/
def resolveSpecModel (args tags : List GoStr) : List CommandInfo :=
  let positional := args.filter
    fun a => !(goHasPrefix a (gs "+") && goContains a (gs ":"))
  let pool := args.filterMap parseInlineDecl ++ tags.filterMap parseFlagDecl
  let r := specResolve positional pool 0
  r.1 ++ (List.enumFrom positional.length r.2).map
    fun kd => { Command := kd.2.Command, Tag := kd.2.Tag, Index := kd.1 }

/-! ### String lemmas -/

theorem goContains_singleton_isSome (s : GoStr) (c : Char) :
    goContains s [c] = (splitFirst s c).isSome := by
  induction s with
  | nil => rfl
  | cons x t ih =>
    rw [goContains, splitFirst]
    by_cases hx : x = c
    · simp [goHasPrefix, hx]
    · simp only [goHasPrefix, hx]
      cases h : splitFirst t c with
      | none => simp [ih, h]
      | some p => simp [ih, h]

theorem goContains_singleton_mem (s : GoStr) (c : Char) :
    goContains s [c] = true ↔ c ∈ s := by
  induction s with
  | nil => simp [goContains, goHasPrefix]
  | cons x t ih =>
    rw [goContains]
    by_cases hx : x = c
    · simp [goHasPrefix, hx]
    · simp [goHasPrefix, hx, ih, Ne.symm hx]

theorem goHasPrefix_cons_iff (s : GoStr) (a : Char) (l : GoStr) :
    goHasPrefix s (a :: l) = true ↔
      ∃ t, s = a :: t ∧ goHasPrefix t l = true := by
  cases s with
  | nil => simp [goHasPrefix]
  | cons x t =>
    rw [goHasPrefix]
    constructor
    · intro h
      have hx : x = a := by
        by_contra hne
        simp [hne] at h
      exact ⟨t, by simp [hx], by simpa [hx] using h⟩
    · rintro ⟨t', ht', hp⟩
      obtain ⟨rfl, rfl⟩ : x = a ∧ t = t' := by
        constructor <;> [exact (List.cons.injEq ..).mp ht' |>.1;
          exact (List.cons.injEq ..).mp ht' |>.2]
      simp [hp]

theorem goContains_cons_head_mem (s : GoStr) (a : Char) (l : GoStr)
    (h : goContains s (a :: l) = true) : a ∈ s := by
  induction s with
  | nil =>
    rw [goContains] at h
    simp [goHasPrefix] at h
  | cons x t ih =>
    rw [goContains] at h
    rcases Bool.or_eq_true _ _ |>.mp h with hp | hc
    · obtain ⟨t', ht', -⟩ := (goHasPrefix_cons_iff _ _ _).mp hp
      obtain ⟨rfl, -⟩ := (List.cons.injEq ..).mp ht'
      exact List.mem_cons_self _ _
    · exact List.mem_cons_of_mem _ (ih hc)

theorem gs_plus : gs "+" = ['+'] := rfl

theorem gs_colon : gs ":" = [':'] := rfl

/-- An argument satisfying the inline-tag condition of `processCommands`
splits into exactly a tag part and a command part. -/
theorem parseInlineDecl_of_cond (arg : GoStr)
    (h : (goHasPrefix arg (gs "+") && goContains arg (gs ":")) = true) :
    ∃ t a b, arg = '+' :: t ∧ splitFirst t ':' = some (a, b) ∧
      parseInlineDecl arg = some { Tag := a, Command := b } := by
  obtain ⟨hpre, hcon⟩ := Bool.and_eq_true _ _ |>.mp h
  rw [gs_plus] at hpre
  obtain ⟨t, rfl, -⟩ := (goHasPrefix_cons_iff _ _ _).mp hpre
  rw [gs_colon, goContains] at hcon
  have hct : goContains t [':'] = true := by
    simpa [goHasPrefix] using hcon
  rw [goContains_singleton_isSome] at hct
  cases hsp : splitFirst t ':' with
  | none => rw [hsp] at hct; simp at hct
  | some p =>
    obtain ⟨a, b⟩ := p
    refine ⟨t, a, b, rfl, hsp, ?_⟩
    rw [parseInlineDecl]
    simp only [gs_plus, goHasPrefix, List.drop_succ_cons, List.drop_zero]
    simp [hsp, goHasPrefix]

/-- An argument failing the inline-tag condition parses to no declaration. -/
theorem parseInlineDecl_of_not_cond (arg : GoStr)
    (h : (goHasPrefix arg (gs "+") && goContains arg (gs ":")) = false) :
    parseInlineDecl arg = none := by
  rw [parseInlineDecl]
  by_cases hpre : goHasPrefix arg (gs "+") = true
  · have hcon : goContains arg (gs ":") = false := by
      rcases Bool.and_eq_false_iff.mp h with h' | h'
      · exact absurd hpre (by simp [h'])
      · exact h'
    rw [gs_plus] at hpre
    obtain ⟨t, rfl, -⟩ := (goHasPrefix_cons_iff _ _ _).mp hpre
    rw [gs_colon, goContains] at hcon
    have hct : goContains t [':'] = false := by
      simpa [goHasPrefix] using hcon
    rw [goContains_singleton_isSome] at hct
    cases hsp : splitFirst t ':' with
    | none => simp [hpre, hsp]
    | some p => rw [hsp] at hct; simp at hct
  · simp [Bool.of_not_eq_true hpre]

/-- The first loop of `processCommands` computes: inline declarations via
`parseInlineDecl`, positional arguments via `filter`, and never warns. -/
theorem classifyArgs_eq (args : List GoStr) :
    classifyArgs args =
      (args.filterMap parseInlineDecl,
       args.filter
         (fun a => !(goHasPrefix a (gs "+") && goContains a (gs ":"))),
       []) := by
  induction args with
  | nil => rfl
  | cons arg rest ih =>
    rw [classifyArgs, ih]
    by_cases hcond :
        (goHasPrefix arg (gs "+") && goContains arg (gs ":")) = true
    · obtain ⟨t, a, b, rfl, hsp, hparse⟩ := parseInlineDecl_of_cond arg hcond
      have hsplit : splitN2 t ':' = [a, b] := by
        simp [splitN2, hsp]
      obtain ⟨hpre, hcon⟩ := Bool.and_eq_true _ _ |>.mp hcond
      simp [hcond, hsplit, hparse, List.filter_cons, hpre, hcon]
    · have h' := Bool.of_not_eq_true hcond
      have hor : (!goHasPrefix arg (gs "+") || !goContains arg (gs ":")) =
          true := by
        rcases Bool.and_eq_false_iff.mp h' with h'' | h'' <;> simp [h'']
      simp [h', parseInlineDecl_of_not_cond arg h', List.filter_cons, hor]

/-- The flag-tag loop of `processCommands` computes `parseFlagDecl`
filter-mapped over the flag values. -/
theorem parseFlagTags_fst (tags : List GoStr) :
    (parseFlagTags tags).1 = tags.filterMap parseFlagDecl := by
  induction tags with
  | nil => rfl
  | cons tagArg rest ih =>
    rw [parseFlagTags]
    cases hsp : splitFirst tagArg ':' with
    | none => simp [splitN2, hsp, parseFlagDecl, ih]
    | some p =>
      obtain ⟨a, b⟩ := p
      simp [splitN2, hsp, parseFlagDecl, ih]

/-- Every warning of the flag-tag loop is a flag warning. -/
theorem parseFlagTags_warns (tags : List GoStr) :
    ∀ w ∈ (parseFlagTags tags).2, ∃ t, w = ResolveWarn.flagBad t := by
  induction tags with
  | nil => intro w hw; simp [parseFlagTags] at hw
  | cons tagArg rest ih =>
    intro w hw
    rw [parseFlagTags] at hw
    cases hsp : splitFirst tagArg ':' with
    | none =>
      simp only [splitN2, hsp] at hw
      simp at hw
      rcases hw with rfl | hw
      · exact ⟨tagArg, rfl⟩
      · exact ih w hw
    | some p =>
      obtain ⟨a, b⟩ := p
      simp only [splitN2, hsp] at hw
      simp at hw
      exact ih w hw

/-- The inner search-and-remove loop equals `findIdx?` + `eraseIdx`. -/
theorem findAndRemove_eq (cmd : GoStr) (pool : List Decl) :
    findAndRemove cmd pool =
      match pool.findIdx? (fun d => decide (d.Command = cmd)) with
      | some j => some (((pool[j]?).map Decl.Tag).getD [], pool.eraseIdx j)
      | none => none := by
  induction pool with
  | nil => simp [findAndRemove, List.findIdx?_nil]
  | cons d rest ih =>
    rw [findAndRemove, List.findIdx?_cons]
    by_cases hd : d.Command = cmd
    · simp [hd]
    · rw [List.findIdx?_succ]
      simp only [hd, decide_False, if_neg, ih]
      cases h : rest.findIdx? (fun d => decide (d.Command = cmd)) with
      | none => simp [hd, h]
      | some j => simp [hd, h]

/-- The positional walk of `processCommands` equals the spec walk. -/
theorem processRegular_eq_specResolve (regs : List GoStr) :
    ∀ pool i, processRegular pool i regs = specResolve regs pool i := by
  induction regs with
  | nil => intro pool i; rfl
  | cons cmd rest ih =>
    intro pool i
    rw [processRegular, specResolve, findAndRemove_eq]
    cases h : pool.findIdx? (fun d => decide (d.Command = cmd)) with
    | none => simp [ih]
    | some j => simp [ih]

/-- The remaining-pool loop equals an `enumFrom`-based map. -/
theorem remainingItems_enumFrom (pool : List Decl) (n : Nat) :
    remainingItems pool n =
      (List.enumFrom n pool).map
        (fun kd => { Command := kd.2.Command, Tag := kd.2.Tag,
                     Index := kd.1 : CommandInfo }) := by
  induction pool generalizing n with
  | nil => rfl
  | cons d rest ih => rw [remainingItems, List.enumFrom, ih]; rfl

/-- The decimal rendering of a natural number is never empty. -/
theorem natDigits_ne_nil (n : Nat) : natDigits n ≠ [] := by
  rw [natDigits, natDigitsAux]
  split <;> simp

/-- A successful `findAndRemove` returns a tag present in the pool, and a
residual pool that is a sub-collection of the original. -/
theorem findAndRemove_mem (cmd : GoStr) (pool : List Decl) :
    ∀ t pool', findAndRemove cmd pool = some (t, pool') →
      (∃ d ∈ pool, d.Tag = t) ∧ ∀ d ∈ pool', d ∈ pool := by
  induction pool with
  | nil => intro t pool' h; simp [findAndRemove] at h
  | cons d rest ih =>
    intro t pool' h
    rw [findAndRemove] at h
    by_cases hd : d.Command = cmd
    · simp only [hd, if_pos] at h
      obtain ⟨rfl, rfl⟩ := Prod.mk.injEq .. ▸ (Option.some.injEq .. ▸ h :
        (d.Tag, rest) = (t, pool'))
      exact ⟨⟨d, List.mem_cons_self _ _, rfl⟩,
        fun x hx => List.mem_cons_of_mem _ hx⟩
    · simp only [hd, if_neg, if_false] at h
      cases hr : findAndRemove cmd rest with
      | none => rw [hr] at h; simp at h
      | some p =>
        obtain ⟨t', rest'⟩ := p
        rw [hr] at h
        simp at h
        obtain ⟨rfl, rfl⟩ := h
        obtain ⟨⟨d', hd', hdt⟩, hsub⟩ := ih t' rest' hr
        refine ⟨⟨d', List.mem_cons_of_mem _ hd', hdt⟩, ?_⟩
        intro x hx
        rcases List.mem_cons.mp hx with rfl | hx
        · exact List.mem_cons_self _ _
        · exact List.mem_cons_of_mem _ (hsub x hx)

/-- The positional walk preserves non-emptiness of tags: if every pool
declaration has a non-empty tag, so do all produced items and all residual
pool declarations. -/
theorem processRegular_tags (regs : List GoStr) :
    ∀ pool i, (∀ d ∈ pool, d.Tag ≠ []) →
      (∀ it ∈ (processRegular pool i regs).1, it.Tag ≠ []) ∧
      (∀ d ∈ (processRegular pool i regs).2, d.Tag ≠ []) := by
  induction regs with
  | nil =>
    intro pool i hp
    exact ⟨by simp [processRegular], hp⟩
  | cons cmd rest ih =>
    intro pool i hp
    cases hfr : findAndRemove cmd pool with
    | none =>
      obtain ⟨h1, h2⟩ := ih pool (i + 1) hp
      simp only [processRegular, hfr]
      refine ⟨?_, h2⟩
      intro it hit
      simp at hit
      rcases hit with rfl | hit
      · exact natDigits_ne_nil _
      · exact h1 it hit
    | some p =>
      obtain ⟨t, pool'⟩ := p
      obtain ⟨⟨d, hd, hdt⟩, hsub⟩ := findAndRemove_mem cmd pool t pool' hfr
      have hp' : ∀ d' ∈ pool', d'.Tag ≠ [] := fun d' hd' => hp d' (hsub d' hd')
      obtain ⟨h1, h2⟩ := ih pool' (i + 1) hp'
      simp only [processRegular, hfr]
      refine ⟨?_, h2⟩
      intro it hit
      simp at hit
      rcases hit with rfl | hit
      · simpa [← hdt] using hp d hd
      · exact h1 it hit

/-- Remaining-pool items inherit the pool declarations' tags. -/
theorem remainingItems_tags (pool : List Decl) :
    ∀ n, (∀ d ∈ pool, d.Tag ≠ []) →
      ∀ it ∈ remainingItems pool n, it.Tag ≠ [] := by
  induction pool with
  | nil => intro n _ it hit; simp [remainingItems] at hit
  | cons d rest ih =>
    intro n hp it hit
    rw [remainingItems] at hit
    simp at hit
    rcases hit with rfl | hit
    · exact hp d (List.mem_cons_self _ _)
    · exact ih (n + 1) (fun d' hd' => hp d' (List.mem_cons_of_mem _ hd')) it
        hit

/-- C1: the Command Resolver returns exactly the positional arguments in
original order — each indexed by position, tagged with the tag of the first
pending declaration (inline declarations in argument order, then flag
declarations in flag order) whose command text equals the positional text,
that declaration being consumed, defaulting to the decimal string of
(position + 1) — followed by all unconsumed declarations in pool order with
contiguously continuing indices. -/
theorem resolver_matches_spec (args tags : List GoStr) :
    (processCommands args tags).1 = resolveSpecModel args tags := by
  simp only [processCommands, resolveSpecModel, classifyArgs_eq,
    parseFlagTags_fst, processRegular_eq_specResolve,
    remainingItems_enumFrom]

/-- C9: in `processCommands`, for every argument beginning with "+" and
containing ":", the split yields exactly two parts, so the inline
invalid-tag warning is unreachable (all warnings come from flag
declarations); a "+"-prefixed argument without ":" is classified as a
regular positional command. -/
theorem inline_warning_unreachable (args tags : List GoStr) :
    (∀ arg, goHasPrefix arg (gs "+") = true →
      goContains arg (gs ":") = true →
        (splitN2 (arg.drop 1) ':').length = 2) ∧
    (∀ w ∈ (processCommands args tags).2, ∃ t, w = ResolveWarn.flagBad t) ∧
    (∀ arg ∈ args, goHasPrefix arg (gs "+") = true →
      goContains arg (gs ":") = false → arg ∈ (classifyArgs args).2.1) := by
  refine ⟨?_, ?_, ?_⟩
  · intro arg hpre hcon
    obtain ⟨t, a, b, rfl, hsp, -⟩ := parseInlineDecl_of_cond arg
      (by simp [hpre, hcon])
    simp [splitN2, hsp]
  · intro w hw
    simp only [processCommands, classifyArgs_eq] at hw
    simp at hw
    exact parseFlagTags_warns tags w hw
  · intro arg hmem hpre hcon
    rw [classifyArgs_eq]
    simp [List.mem_filter, hmem, hpre, hcon]

/-- Witness for `inline_warning_unreachable` at concrete inputs. -/
theorem inline_warning_unreachable_witness :
    (splitN2 ((gs "+greeting:echo hi").drop 1) ':').length = 2 ∧
    (∀ w ∈ (processCommands [gs "+nocolon"] [gs "noseparator"]).2,
      ∃ t, w = ResolveWarn.flagBad t) ∧
    gs "+nocolon" ∈ (classifyArgs [gs "+nocolon"]).2.1 := by
  refine ⟨?_, ?_, ?_⟩
  · exact (inline_warning_unreachable [] []).1 (gs "+greeting:echo hi")
      (by decide) (by decide)
  · exact (inline_warning_unreachable [gs "+nocolon"]
      [gs "noseparator"]).2.1
  · exact (inline_warning_unreachable [gs "+nocolon"]
      [gs "noseparator"]).2.2 (gs "+nocolon") (by decide) (by decide)
        (by decide)

/-- C6 counterexample: the inline declaration "+:cmd" has an empty name
part, and the resulting work item carries an empty tag. -/
theorem work_item_empty_tag_cex :
    ¬ (∀ it ∈ (processCommands [gs "+:cmd"] []).1, it.Tag ≠ []) := by
  decide

/-- C6 (amended): every work item produced by the Command Resolver has a
non-empty tag, provided every parsed declaration (inline or flag) has a
non-empty name part; a declaration with an empty name part, such as
"+:cmd" or ":cmd", yields a work item with an empty tag. -/
theorem work_item_tags_nonempty (args tags : List GoStr)
    (h : ∀ d ∈ (classifyArgs args).1 ++ (parseFlagTags tags).1,
      d.Tag ≠ []) :
    ∀ it ∈ (processCommands args tags).1, it.Tag ≠ [] := by
  intro it hit
  simp only [processCommands] at hit
  rw [List.mem_append] at hit
  obtain ⟨h1, h2⟩ := processRegular_tags (classifyArgs args).2.1
    ((classifyArgs args).1 ++ (parseFlagTags tags).1) 0 h
  rcases hit with hit | hit
  · exact h1 it hit
  · exact remainingItems_tags _ _ h2 it hit

/-- Witness for `work_item_tags_nonempty` at concrete inputs. -/
theorem work_item_tags_nonempty_witness :
    (∀ d ∈ (classifyArgs [gs "+a:x", gs "echo hi"]).1 ++
        (parseFlagTags [gs "b:y"]).1, d.Tag ≠ []) ∧
    ∀ it ∈ (processCommands [gs "+a:x", gs "echo hi"] [gs "b:y"]).1,
      it.Tag ≠ [] :=
  ⟨by decide, work_item_tags_nonempty [gs "+a:x", gs "echo hi"] [gs "b:y"]
    (by decide)⟩

/-! ### Shell-Need Classifier (`needsShell`, main.go lines 322-361) -/

/-- `shellSpecialChars` from main.go line 62. -/
def shellSpecialChars : List GoStr :=
  [gs "|", gs "&", gs ";", gs "<", gs ">", gs "(", gs ")", gs "$",
   gs "`", gs "\\", gs "\"", gs "'", gs "*", gs "?", gs "[", gs "]",
   gs "#", gs "~", gs "=", gs "%"]

/-- `needsShell` from main.go, parameterised by the `forceShell` and
`envVars` globals. -/
def needsShell (forceShell : Bool) (envVars : List GoStr)
    (command : GoStr) : Bool :=
  if forceShell then true
  else if 0 < envVars.length then true
  else if shellSpecialChars.any (fun ch => goContains command ch) then true
  else if goContains command (gs "&&") || goContains command (gs "||") ||
      goContains command (gs ";") then true
  else if goContains command (gs ">") || goContains command (gs "<") then
    true
  else if goContains command (gs "|") then true
  else if goContains command (gs "*") || goContains command (gs "?") ||
      goContains command (gs "[") then true
  else false

/-- The twenty shell metacharacters, as characters. -/
def metaChars : GoStr := gs "|&;<>()$`\\\"'*?[]#~=%"

/-- `shellSpecialChars` is exactly the singleton strings over
`metaChars`. -/
theorem shellSpecialChars_eq_map :
    shellSpecialChars = metaChars.map (fun c => [c]) := by decide

example : needsShell false [] (gs "echo hello") = false := by decide
example : needsShell false [] (gs "echo hello | grep hello") = true := by
  decide
example : needsShell false [] (gs "echo $HOME") = true := by decide
example : needsShell false [] (gs "ls *.txt") = true := by decide
example : needsShell true [] (gs "echo hello") = true := by decide
example : needsShell false [gs "A=1"] (gs "echo hello") = true := by decide

/-- C3: `needsShell` returns true iff shell use is forced, extra
environment variables were supplied, or the command contains one of the
twenty shell metacharacters; the chaining/redirection/pipe/glob re-checks
add nothing beyond those characters. -/
theorem needsShell_iff (forceShell : Bool) (envVars : List GoStr)
    (command : GoStr) :
    needsShell forceShell envVars command = true ↔
      forceShell = true ∨ envVars ≠ [] ∨
        ∃ c, c ∈ metaChars ∧ c ∈ command := by
  constructor
  · intro h
    rw [needsShell] at h
    split_ifs at h with h1 h2 h3 h4 h5 h6 h7
    · exact Or.inl h1
    · refine Or.inr (Or.inl ?_)
      intro hnil
      rw [hnil] at h2
      simp at h2
    · refine Or.inr (Or.inr ?_)
      obtain ⟨sub, hsub, hc⟩ := List.any_eq_true.mp h3
      have : ∀ s ∈ shellSpecialChars, ∃ c, c ∈ metaChars ∧ s = [c] := by
        decide
      obtain ⟨c, hcm, rfl⟩ := this sub hsub
      exact ⟨c, hcm, (goContains_singleton_mem command c).mp hc⟩
    · refine Or.inr (Or.inr ?_)
      rcases Bool.or_eq_true _ _ |>.mp h4 with h' | h'
      · rcases Bool.or_eq_true _ _ |>.mp h' with h'' | h''
        · exact ⟨'&', by decide, goContains_cons_head_mem _ _ _ h''⟩
        · exact ⟨'|', by decide, goContains_cons_head_mem _ _ _ h''⟩
      · exact ⟨';', by decide, goContains_cons_head_mem _ _ _ h'⟩
    · refine Or.inr (Or.inr ?_)
      rcases Bool.or_eq_true _ _ |>.mp h5 with h' | h'
      · exact ⟨'>', by decide, goContains_cons_head_mem _ _ _ h'⟩
      · exact ⟨'<', by decide, goContains_cons_head_mem _ _ _ h'⟩
    · exact Or.inr (Or.inr ⟨'|', by decide,
        goContains_cons_head_mem _ _ _ h6⟩)
    · refine Or.inr (Or.inr ?_)
      rcases Bool.or_eq_true _ _ |>.mp h7 with h' | h'
      · rcases Bool.or_eq_true _ _ |>.mp h' with h'' | h''
        · exact ⟨'*', by decide, goContains_cons_head_mem _ _ _ h''⟩
        · exact ⟨'?', by decide, goContains_cons_head_mem _ _ _ h''⟩
      · exact ⟨'[', by decide, goContains_cons_head_mem _ _ _ h'⟩
  · intro h
    rw [needsShell]
    rcases h with h | h | h
    · simp [h]
    · have hlen : 0 < envVars.length := by
        cases envVars with
        | nil => exact absurd rfl h
        | cons x t => simp
      simp [hlen]
    · obtain ⟨c, hcm, hcc⟩ := h
      have hany : shellSpecialChars.any
          (fun ch => goContains command ch) = true := by
        have hmem : [c] ∈ shellSpecialChars := by
          rw [shellSpecialChars_eq_map]
          exact List.mem_map_of_mem _ hcm
        exact List.any_eq_true.mpr
          ⟨[c], hmem, (goContains_singleton_mem command c).mpr hcc⟩
      simp [hany]

/-! ### Output Multiplexer (`processOutput`, main.go lines 490-512)

`processOutput` reads lines with `bufio.Scanner`; the scanner's token
buffer is capped at `bufio.MaxScanTokenSize` bytes, and on the child's
pipes a line whose length reaches that cap makes `Scan` fail with
`ErrTooLong`, ending the loop. -/

/-- ANSI reset code (`colorReset` in main.go). -/
def colorReset : GoStr := gs "\x1b[0m"

/-- One formatted output line, from the body of the `scanner.Scan` loop:
colorless mode prints `"[tag:streamType] " + line` via `Println`, colored
mode prints `color + "[tag] " + colorReset + line + "\n"` via `Print`. -/
def formatOutputLine (noColor colorSupported : Bool)
    (color tag streamType line : GoStr) : GoStr :=
  if noColor || !colorSupported then
    (gs "[" ++ tag ++ gs ":" ++ streamType ++ gs "] ") ++ line ++ gs "\n"
  else
    color ++ (gs "[" ++ tag ++ gs "] ") ++ colorReset ++ line ++ gs "\n"

/-- `bufio.MaxScanTokenSize`. -/
def maxScanTokenSize : Nat := 65536

/-- The `scanner.Scan` loop over the newline-delimited lines of the child
stream: lines are delivered in order while each fits the scanner buffer
(strictly below `maxScanTokenSize` bytes, since the newline must also be
buffered); the first over-long line stops the loop with `ErrTooLong`
(second component `true`). -/
def scanLines : List GoStr → List GoStr × Bool
  | [] => ([], false)
  | l :: rest =>
    if l.length < maxScanTokenSize then
      let r := scanLines rest
      (l :: r.1, r.2)
    else ([], true)

/-- `processOutput`: the tagged lines written to the shared sink, plus
whether a read error (`ErrTooLong`) was reported afterwards. -/
def processOutput (noColor colorSupported : Bool)
    (color tag streamType : GoStr) (lines : List GoStr) :
    List GoStr × Bool :=
  let r := scanLines lines
  (r.1.map (formatOutputLine noColor colorSupported color tag streamType),
   r.2)

/-- C4: each delivered line is formatted bit-exactly as
`"[tag:streamType] " ++ line` (plus the `Println` newline) when color is
disabled, and as `color ++ "[tag] " ++ reset ++ line ++ "\n"`, with the
stream kind omitted, when color is enabled. -/
theorem output_line_format (noColor colorSupported : Bool)
    (color tag streamType line : GoStr) :
    ((noColor || !colorSupported) = true →
      formatOutputLine noColor colorSupported color tag streamType line =
        gs "[" ++ tag ++ gs ":" ++ streamType ++ gs "] " ++ line ++
          gs "\n") ∧
    ((noColor || !colorSupported) = false →
      formatOutputLine noColor colorSupported color tag streamType line =
        color ++ gs "[" ++ tag ++ gs "] " ++ colorReset ++ line ++
          gs "\n") := by
  constructor
  · intro h
    rw [formatOutputLine, if_pos h]
  · intro h
    rw [formatOutputLine, if_neg (by simp [h])]
    simp [List.append_assoc]

/-- Witness for `output_line_format` at concrete inputs. -/
theorem output_line_format_witness :
    formatOutputLine true true [] (gs "web") (gs "out") (gs "hello") =
      gs "[web:out] hello\n" ∧
    formatOutputLine false true (gs "\x1b[32m") (gs "web") (gs "out")
        (gs "hello") =
      gs "\x1b[32m[web] " ++ colorReset ++ gs "hello\n" := by
  constructor
  · have h := (output_line_format true true [] (gs "web") (gs "out")
      (gs "hello")).1 (by decide)
    rw [h]
    decide
  · have h := (output_line_format false true (gs "\x1b[32m") (gs "web")
      (gs "out") (gs "hello")).2 (by decide)
    rw [h]
    decide

/-- A line longer than the scanner's buffer cap. -/
def longLine : GoStr := List.replicate 70000 'a'

/-- C7 counterexample: a 70000-byte line is not delivered — the scan loop
stops with `ErrTooLong` and emits nothing, refuting "a line of any length
is delivered". -/
theorem long_line_not_delivered_cex :
    (scanLines [longLine]).1 ≠ [longLine] ∧ (scanLines [longLine]).2 = true
    := by
  have hlen : longLine.length = 70000 := by
    rw [longLine]
    exact List.length_replicate 70000 'a'
  have h : scanLines [longLine] = ([], true) := by
    rw [scanLines, if_neg]
    rw [hlen, maxScanTokenSize]
    omega
  rw [h]
  exact ⟨by simp, rfl⟩

/-- C7 (amended): the Output Multiplexer delivers every newline-delimited
line whose length is below `bufio.MaxScanTokenSize` (65536 bytes); the
first longer line aborts that stream's multiplexing loop with a read
error, and it and all later lines are dropped. -/
theorem all_short_lines_delivered (noColor colorSupported : Bool)
    (color tag streamType : GoStr) (lines : List GoStr)
    (h : ∀ l ∈ lines, l.length < maxScanTokenSize) :
    processOutput noColor colorSupported color tag streamType lines =
      (lines.map
        (formatOutputLine noColor colorSupported color tag streamType),
       false) := by
  have hscan : scanLines lines = (lines, false) := by
    induction lines with
    | nil => rfl
    | cons l rest ih =>
      rw [scanLines, if_pos (h l (List.mem_cons_self _ _)),
        ih (fun x hx => h x (List.mem_cons_of_mem _ hx))]
  simp [processOutput, hscan]

/-- Witness for `all_short_lines_delivered` at concrete inputs. -/
theorem all_short_lines_delivered_witness :
    (∀ l ∈ [gs "hello", gs "world"], l.length < maxScanTokenSize) ∧
    processOutput true true [] (gs "web") (gs "out")
        [gs "hello", gs "world"] =
      ([gs "[web:out] hello\n", gs "[web:out] world\n"], false) := by
  refine ⟨by decide, ?_⟩
  rw [all_short_lines_delivered true true [] (gs "web") (gs "out")
    [gs "hello", gs "world"] (by decide)]
  decide

/-! ### Signal Coordinator (`setupSignalHandling`, main.go lines 128-192)

One iteration of the signal loop is modelled as a pure function of the
incoming signal, the mode, the platform, the recorded last-SIGINT
timestamp (in nanoseconds, `none` for Go's zero `time.Time`), the current
time, the current sequential command, and the live-process registry. -/

/-- The three signals the handler registers for. -/
inductive GoSignal where
  | SIGINT
  | SIGTERM
  | SIGHUP
deriving DecidableEq

/-- `syscall` signal numbers. -/
def signalNumber : GoSignal → Nat
  | .SIGINT => 2
  | .SIGTERM => 15
  | .SIGHUP => 1

/-- `time.Second` in nanoseconds. -/
def timeSecond : Nat := 1000000000

/-- A child process handle (`*exec.Cmd` with a non-nil `Process`). -/
structure ProcRef where
  pid : Nat
deriving DecidableEq

/-- A delivery action performed on a child process. -/
inductive SigAction where
  | signalProc (p : ProcRef) (sig : GoSignal)
  | killProc (p : ProcRef)
deriving DecidableEq

/-- Which notice the handler prints. -/
inductive SigNotice where
  | doubleInterrupt
  | pressAgain
  | forwardingAll (sig : GoSignal)
deriving DecidableEq

/-- The observable outcome of one iteration of the signal loop. -/
structure HandlerStep where
  exitCode : Option Nat
  lastSigIntTime : Option Nat
  notice : SigNotice
  actions : List SigAction
deriving DecidableEq

/-- The double-Ctrl+C test of main.go line 142:
`!lastSigIntTime.IsZero() && now.Sub(lastSigIntTime) < time.Second`. -/
def isDoubleSigInt (last : Option Nat) (now : Nat) : Bool :=
  match last with
  | none => false
  | some t => now - t < timeSecond

/-- One iteration of the `for sig := range signalChan` loop. -/
def handleSignal (sig : GoSignal) (parallelMode : Bool) (isWindows : Bool)
    (lastSigIntTime : Option Nat) (now : Nat)
    (currentSequentialCmd : Option ProcRef)
    (activeCommands : List ProcRef) : HandlerStep :=
  if sig = .SIGINT && !parallelMode then
    if isDoubleSigInt lastSigIntTime now then
      { exitCode := some 130, lastSigIntTime := lastSigIntTime,
        notice := .doubleInterrupt, actions := [] }
    else
      { exitCode := none, lastSigIntTime := some now,
        notice := .pressAgain,
        actions :=
          match currentSequentialCmd with
          | some p => [.signalProc p sig]
          | none => [] }
  else
    { exitCode :=
        if (sig = .SIGINT || sig = .SIGTERM) && parallelMode then
          some (128 + signalNumber sig)
        else if sig = .SIGTERM && !parallelMode then
          some (128 + signalNumber sig)
        else none,
      lastSigIntTime := lastSigIntTime,
      notice := .forwardingAll sig,
      actions := activeCommands.map fun p =>
        if isWindows && sig = .SIGHUP then .killProc p
        else .signalProc p sig }

/-- C2: in sequential mode a SIGINT received less than one second after a
recorded previous SIGINT exits with code 130 after a notice; otherwise
(no previous SIGINT, or one at least a second old) the handler records the
current timestamp, prints the press-again notice, forwards the signal only
to the current sequential command (no-op when none), and keeps the
orchestrator running. -/
theorem sequential_sigint_policy (isWindows : Bool) (last : Option Nat)
    (now : Nat) (cur : Option ProcRef) (active : List ProcRef) :
    ((∃ t, last = some t ∧ now - t < timeSecond) →
      (handleSignal .SIGINT false isWindows last now cur active).exitCode =
          some 130 ∧
      (handleSignal .SIGINT false isWindows last now cur active).notice =
          .doubleInterrupt) ∧
    ((last = none ∨ ∃ t, last = some t ∧ timeSecond ≤ now - t) →
      handleSignal .SIGINT false isWindows last now cur active =
        { exitCode := none, lastSigIntTime := some now,
          notice := .pressAgain,
          actions :=
            match cur with
            | some p => [.signalProc p .SIGINT]
            | none => [] }) := by
  constructor
  · rintro ⟨t, rfl, ht⟩
    have hd : isDoubleSigInt (some t) now = true := by
      simp [isDoubleSigInt, ht]
    simp [handleSignal, hd]
  · intro h
    have hd : isDoubleSigInt last now = false := by
      rcases h with rfl | ⟨t, rfl, ht⟩
      · rfl
      · simp [isDoubleSigInt]
        omega
    simp [handleSignal, hd]

/-- Witness for `sequential_sigint_policy` at concrete inputs. -/
theorem sequential_sigint_policy_witness :
    ((handleSignal .SIGINT false false (some 5) 6 (some ⟨42⟩)
        []).exitCode = some 130) ∧
    handleSignal .SIGINT false false none 6 (some ⟨42⟩) [] =
      { exitCode := none, lastSigIntTime := some 6,
        notice := .pressAgain,
        actions := [.signalProc ⟨42⟩ .SIGINT] } := by
  constructor
  · exact (sequential_sigint_policy false (some 5) 6 (some ⟨42⟩) []).1
      ⟨5, rfl, by decide⟩ |>.1
  · exact (sequential_sigint_policy false none 6 (some ⟨42⟩) []).2
      (Or.inl rfl)

/-- C10: SIGHUP never exits the orchestrator — the handler broadcasts it
to all live children (kills them on Windows) and keeps listening; only
SIGINT and SIGTERM can produce an exit code. -/
theorem sighup_never_exits (parallelMode isWindows : Bool)
    (last : Option Nat) (now : Nat) (cur : Option ProcRef)
    (active : List ProcRef) :
    (handleSignal .SIGHUP parallelMode isWindows last now cur
        active).exitCode = none ∧
    (handleSignal .SIGHUP parallelMode isWindows last now cur
        active).actions =
      active.map (fun p =>
        if isWindows then SigAction.killProc p
        else SigAction.signalProc p .SIGHUP) ∧
    (∀ sig, (handleSignal sig parallelMode isWindows last now cur
        active).exitCode ≠ none → sig = .SIGINT ∨ sig = .SIGTERM) := by
  refine ⟨?_, ?_, ?_⟩
  · simp [handleSignal]
  · simp [handleSignal]
  · intro sig h
    cases sig with
    | SIGINT => exact Or.inl rfl
    | SIGTERM => exact Or.inr rfl
    | SIGHUP =>
      exfalso
      apply h
      simp [handleSignal]

/-- Witness for `sighup_never_exits` at concrete inputs. -/
theorem sighup_never_exits_witness :
    (handleSignal .SIGHUP true false none 0 none [⟨7⟩]).exitCode = none ∧
    (handleSignal .SIGHUP true false none 0 none [⟨7⟩]).actions =
      [.signalProc ⟨7⟩ .SIGHUP] ∧
    (handleSignal .SIGTERM true false none 0 none [⟨7⟩]).exitCode ≠ none →
      GoSignal.SIGTERM = .SIGINT ∨ GoSignal.SIGTERM = .SIGTERM := by
  intro h
  exact (sighup_never_exits true false none 0 none [⟨7⟩]).2.2 .SIGTERM
    (by decide)

/-! ### Process Supervisor (`executeCommand`, main.go lines 363-488)

`executeCommand` is modelled as the sequence of states of the shared
mutable orchestration state observed between its statements.  The
environment fixes the outcomes of the fallible external calls. -/

/-- Outcomes of the external calls made by one `executeCommand` run. -/
structure ExecEnv where
  parallelMode : Bool
  shellMode : Bool
  parseOkNonEmpty : Bool
  stdoutPipeOk : Bool
  stderrPipeOk : Bool
  startOk : Bool
  waitOk : Bool
deriving DecidableEq

/-- Snapshot of the shared state for one command. -/
structure ExecState where
  currentSet : Bool
  registered : Bool
  started : Bool
  reaped : Bool
deriving DecidableEq

/-- The initial snapshot: nothing recorded. -/
def execInit : ExecState :=
  { currentSet := false, registered := false, started := false,
    reaped := false }

/-- Trace of snapshots of one `executeCommand` run.  The non-shell path
returns before touching any shared state when tokenizing fails or yields
an empty vector (lines 384-393); lines 400-405 set `currentSequentialCmd`
in sequential mode before the pipes are created; pipe-creation failure
(lines 418-428) and start failure (line 436-439) return early; on a
successful start the command is stored in `activeCommands` (lines
441-443, no observable action between `Start` and `Store`); after
`cmd.Wait()` returns the entry is deleted (lines 465-468, likewise
adjacent) and then `currentSequentialCmd` is cleared in sequential mode
(lines 470-475). -/
def execTrace (env : ExecEnv) : List ExecState :=
  if !env.shellMode && !env.parseOkNonEmpty then [execInit]
  else
    let s1 := { execInit with currentSet := !env.parallelMode }
    if !env.stdoutPipeOk then [execInit, s1]
    else if !env.stderrPipeOk then [execInit, s1]
    else if !env.startOk then [execInit, s1]
    else
      let s2 := { s1 with started := true, registered := true }
      let s3 := { s2 with reaped := true, registered := false }
      let s4 := { s3 with
        currentSet := if env.parallelMode then s3.currentSet else false }
      [execInit, s1, s2, s3, s4]

/-- C8: at every observable point, the command has an entry in the
active-commands registry if and only if its child process has been
started and not yet reaped. -/
theorem registry_iff_started_not_reaped (env : ExecEnv) :
    ∀ s ∈ execTrace env, s.registered = (s.started && !s.reaped) := by
  intro s hs
  rw [execTrace] at hs
  split_ifs at hs <;> simp [execInit] at hs <;>
    rcases hs with rfl | hs <;>
      first
        | rfl
        | (rcases hs with rfl | hs <;>
            first
              | rfl
              | (rcases hs with rfl | rfl | rfl <;> rfl))

/-- The snapshot between a successful start and the wait. -/
def runningState : ExecState :=
  { currentSet := true, registered := true, started := true,
    reaped := false }

/-- Witness for `registry_iff_started_not_reaped` at a concrete run. -/
theorem registry_iff_started_not_reaped_witness :
    runningState ∈ execTrace ⟨false, true, true, true, true, true, true⟩ ∧
    runningState.registered = (runningState.started && !runningState.reaped)
    := by
  refine ⟨by decide, ?_⟩
  exact registry_iff_started_not_reaped
    ⟨false, true, true, true, true, true, true⟩ runningState (by decide)

/-- A sequential run whose `cmd.Start()` fails. -/
def failedStartEnv : ExecEnv :=
  { parallelMode := false, shellMode := true, parseOkNonEmpty := true,
    stdoutPipeOk := true, stderrPipeOk := true, startOk := false,
    waitOk := true }

/-- C5 counterexample: in a sequential run whose spawn fails, the process
is never started, yet `currentSequentialCmd` is set — it was recorded
before the spawn attempt (main.go lines 400-405) and the early return at
line 438 never clears it.  This refutes "recorded only upon successful
spawn" and "after any single command's execution finishes or errors out,
the reference is unset". -/
theorem current_record_cex :
    failedStartEnv.parallelMode = false ∧
    (∀ s ∈ execTrace failedStartEnv, s.started = false) ∧
    ((execTrace failedStartEnv).getLast?).map ExecState.currentSet =
      some true := by
  decide

/-- C5 (amended): in sequential mode the command is recorded as current
before the spawn attempt (as soon as the command object is built), not
upon successful spawn; when the pipes and the start succeed the record is
cleared after the wait completes, whether or not the wait fails; when
pipe creation or the start fails, the function returns early leaving the
record set. -/
theorem current_record_lifecycle (env : ExecEnv)
    (hseq : env.parallelMode = false)
    (hbuilt : (env.shellMode || env.parseOkNonEmpty) = true) :
    ((execTrace env)[1]?).map ExecState.currentSet = some true ∧
    ((env.stdoutPipeOk && env.stderrPipeOk && env.startOk) = true →
      ((execTrace env).getLast?).map ExecState.currentSet = some false) ∧
    ((env.stdoutPipeOk && env.stderrPipeOk && env.startOk) = false →
      ((execTrace env).getLast?).map ExecState.currentSet = some true) := by
  obtain ⟨p, sh, po, so, se, st, w⟩ := env
  revert hseq hbuilt
  revert p sh po so se st w
  decide

/-- Witness for `current_record_lifecycle` at a concrete run. -/
theorem current_record_lifecycle_witness :
    ((execTrace ⟨false, true, true, true, true, true, false⟩)[1]?).map
        ExecState.currentSet = some true ∧
    ((execTrace ⟨false, true, true, true, true, true, false⟩).getLast?).map
        ExecState.currentSet = some false := by
  have h := current_record_lifecycle
    ⟨false, true, true, true, true, true, false⟩ rfl (by decide)
  exact ⟨h.1, h.2.1 (by decide)⟩
